import Mathlib

/-!
Verification of the COT sentiment build script (`src/data/scripts/buildSentiment.js`).

The script's pure core is embedded shallowly over `List Char` (JS strings) and
`ℚ` (JS numbers; the data of interest is exact decimals, modelled exactly).
Fallible parsing steps return `Except String`, mirroring `throw new Error(msg)`.
Functions keep the source's names: `norm`, `toNumber`, `toISO`, `parseCSVLine`,
`parseCSVRecord`, `parseFixedWidth`, `findTargetLine`, and the `main` pipeline
is modelled by `buildOutput` / `runScript`.
-/

/-- Code points matched by JavaScript's `\s` (WhiteSpace + LineTerminator). -/
def isWsCode (n : Nat) : Bool :=
  decide (n = 9 ∨ n = 10 ∨ n = 11 ∨ n = 12 ∨ n = 13 ∨ n = 32 ∨ n = 160 ∨
    n = 0x1680 ∨ (0x2000 ≤ n ∧ n ≤ 0x200a) ∨ n = 0x2028 ∨ n = 0x2029 ∨
    n = 0x202f ∨ n = 0x205f ∨ n = 0x3000 ∨ n = 0xfeff)

/-- JS `\s` on characters. -/
def isWs (c : Char) : Bool := isWsCode c.toNat

/-- The dash variants rewritten by `norm`: figure dash U+2012, en dash U+2013,
em dash U+2014, minus sign U+2212 (exactly the class `[‒–—−]`). -/
def isDashVariant (c : Char) : Bool :=
  decide (c.toNat = 0x2012 ∨ c.toNat = 0x2013 ∨ c.toNat = 0x2014 ∨ c.toNat = 0x2212)

/-- One character of the dash-normalisation replace. -/
def dashFix (c : Char) : Char := if isDashVariant c then '-' else c

/-- JS `String.prototype.toUpperCase` restricted to the ASCII letters
(the only case-carrying characters occurring in this data). -/
def upChar (c : Char) : Char :=
  if 97 ≤ c.toNat ∧ c.toNat ≤ 122 then Char.ofNat (c.toNat - 32) else c

/-- A character after dash normalisation and upper-casing. -/
def canonChar (c : Char) : Char := upChar (dashFix c)

/-- The leading half of `String.prototype.trim`: drop leading JS whitespace. -/
def dropLead (l : List Char) : List Char := l.dropWhile isWs

/-- The trailing half of `String.prototype.trim`: drop trailing JS whitespace. -/
def dropTrail (l : List Char) : List Char := (l.reverse.dropWhile isWs).reverse

/-- JS `String.prototype.trim`. -/
def jsTrim (l : List Char) : List Char := dropTrail (dropLead l)

/-- Worker for `collapseWs`; the flag records whether the previous character
was whitespace (i.e. we are inside a run whose single `' '` is already
emitted). Structural recursion, so concrete inputs evaluate in the kernel. -/
def collapseGo : Bool → List Char → List Char
  | _, [] => []
  | inWs, c :: rest =>
    if isWs c then
      if inWs then collapseGo true rest else ' ' :: collapseGo true rest
    else c :: collapseGo false rest

/-- The source's `replace(/\s+/g,' ')`: each maximal whitespace run becomes one space. -/
def collapseWs (l : List Char) : List Char := collapseGo false l

/-- Function `norm` from the source: dash variants to `-`, whitespace runs to single
spaces, trim, uppercase — in that order. -/
def norm (l : List Char) : List Char :=
  (jsTrim (collapseWs (l.map dashFix))).map upChar

/-- Decimal digit test. -/
def isDigitC (c : Char) : Bool := decide (48 ≤ c.toNat ∧ c.toNat ≤ 57)

/-- Value of a decimal digit character. -/
def digVal (c : Char) : Nat := c.toNat - 48

/-- Numeric value of a string of decimal digits. -/
def natOfDigits (ds : List Char) : Nat := ds.foldl (fun a c => 10 * a + digVal c) 0

/-- Hexadecimal digit test. -/
def isHexC (c : Char) : Bool :=
  decide ((48 ≤ c.toNat ∧ c.toNat ≤ 57) ∨ (97 ≤ c.toNat ∧ c.toNat ≤ 102) ∨
    (65 ≤ c.toNat ∧ c.toNat ≤ 70))

/-- Value of a hexadecimal digit character. -/
def hexVal (c : Char) : Nat :=
  if 48 ≤ c.toNat ∧ c.toNat ≤ 57 then c.toNat - 48
  else if 97 ≤ c.toNat then c.toNat - 87
  else c.toNat - 55

/-- Numeric value of a string of hexadecimal digits. -/
def natOfHex (ds : List Char) : Nat := ds.foldl (fun a c => 16 * a + hexVal c) 0

/-- Binary digit test. -/
def isBinC (c : Char) : Bool := decide (c.toNat = 48 ∨ c.toNat = 49)

/-- Numeric value of a string of binary digits. -/
def natOfBin (ds : List Char) : Nat := ds.foldl (fun a c => 2 * a + digVal c) 0

/-- Octal digit test. -/
def isOctC (c : Char) : Bool := decide (48 ≤ c.toNat ∧ c.toNat ≤ 55)

/-- Numeric value of a string of octal digits. -/
def natOfOct (ds : List Char) : Nat := ds.foldl (fun a c => 8 * a + digVal c) 0

/-- Value `ip.fp × 10^e` of decimal notation, computed as one exact
rational `m × 10^(e - |fp|)` with `m` the digit string `ip ++ fp`.
(Integer arithmetic plus one `Rat.divInt` keeps the definition
kernel-evaluable on concrete tokens.) -/
def decValue (ip fp : List Char) (e : Int) : ℚ :=
  let m : Nat := natOfDigits ip * 10 ^ fp.length + natOfDigits fp
  let esh : Int := e - (fp.length : Int)
  if 0 ≤ esh then Rat.divInt ((m : Int) * (10 : Int) ^ esh.toNat) 1
  else Rat.divInt (m : Int) ((10 : Int) ^ (-esh).toNat)

/-- Trailing exponent part of a decimal literal (`e`/`E`, optional sign,
digits); empty means exponent 0; anything else makes the token NaN. -/
def parseExp (r : List Char) : Option Int :=
  match r with
  | [] => some 0
  | e :: rest =>
    if e = 'e' ∨ e = 'E' then
      match rest with
      | '+' :: ds =>
        if ds ≠ [] ∧ ds.all isDigitC then some ((natOfDigits ds : Int)) else none
      | '-' :: ds =>
        if ds ≠ [] ∧ ds.all isDigitC then some (-(natOfDigits ds : Int)) else none
      | ds =>
        if ds ≠ [] ∧ ds.all isDigitC then some ((natOfDigits ds : Int)) else none
    else none

/-- Unsigned decimal literal of JS `Number`: digits, optional `.digits`,
optional exponent. `none` models NaN. -/
def parseDec (t : List Char) : Option ℚ :=
  let ip := t.takeWhile isDigitC
  match t.dropWhile isDigitC with
  | '.' :: rest =>
    let fp := rest.takeWhile isDigitC
    if ip = [] ∧ fp = [] then none
    else (parseExp (rest.dropWhile isDigitC)).map (fun e => decValue ip fp e)
  | r =>
    if ip = [] then none else (parseExp r).map (fun e => decValue ip [] e)

/-- Unsigned literal with possible `0x`/`0b`/`0o` radix prefix. -/
def parseRadix (t : List Char) : Option ℚ :=
  match t with
  | '0' :: x :: ds =>
    if x = 'x' ∨ x = 'X' then
      if ds ≠ [] ∧ ds.all isHexC then some ((natOfHex ds : ℚ)) else none
    else if x = 'b' ∨ x = 'B' then
      if ds ≠ [] ∧ ds.all isBinC then some ((natOfBin ds : ℚ)) else none
    else if x = 'o' ∨ x = 'O' then
      if ds ≠ [] ∧ ds.all isOctC then some ((natOfOct ds : ℚ)) else none
    else parseDec t
  | _ => parseDec t

/-- JS `Number(string)` restricted to finite results: whitespace-trimmed,
empty means `0`, `Infinity` variants are non-finite (`none`), an optional
sign followed by a decimal literal, or an unsigned radix literal.
`none` models NaN/±Infinity (everything `isFinite` rejects). -/
def jsNumber (s : List Char) : Option ℚ :=
  let t := jsTrim s
  if t = [] then some 0
  else if t = "Infinity".data ∨ t = "+Infinity".data ∨ t = "-Infinity".data then none
  else
    match t with
    | '+' :: rest => parseDec rest
    | '-' :: rest => (parseDec rest).map (fun q => -q)
    | _ => parseRadix t

/-- The source's `replace(/[,"]/g,'')`. -/
def stripCQ (s : List Char) : List Char :=
  s.filter (fun c => !(c = ',' ∨ c = '"'))

/-- The source's `replace(/\+/g,'')`. -/
def stripPlus (s : List Char) : List Char := s.filter (fun c => !(c = '+'))

/-- The cleaned token `String(v).replace(/[,"]/g,'').replace(/\+/g,'').trim()`. -/
def cleanTok (s : List Char) : List Char := jsTrim (stripPlus (stripCQ s))

/-- Function `toNumber` from the source; `none` models a null/undefined argument. -/
def toNumber (v : Option (List Char)) : ℚ :=
  match v with
  | none => 0
  | some s => (jsNumber (cleanTok s)).getD 0

/-- The shape test `/^\d{4}-\d{2}-\d{2}$/`. -/
def isoShape (md : List Char) : Bool :=
  match md with
  | [y1, y2, y3, y4, '-', m1, m2, '-', d1, d2] =>
    isDigitC y1 && isDigitC y2 && isDigitC y3 && isDigitC y4 &&
    isDigitC m1 && isDigitC m2 && isDigitC d1 && isDigitC d2
  | _ => false

/-- The shape test `/^\d{6}$/`. -/
def sixDigitShape (md : List Char) : Bool :=
  md.length = 6 && md.all isDigitC

/-- The shape test `/^\d{2}\/\d{2}\/\d{2,4}$/` (note: the year part admits
two, three or four digits). -/
def slashShape (md : List Char) : Bool :=
  match md with
  | m1 :: m2 :: '/' :: d1 :: d2 :: '/' :: ys =>
    isDigitC m1 && isDigitC m2 && isDigitC d1 && isDigitC d2 &&
    ys.all isDigitC && decide (2 ≤ ys.length) && decide (ys.length ≤ 4)
  | _ => false

/-- Two-digit-year pivot: `Number(yy) > 70` selects the 1900s. -/
def expandYY (yy : List Char) : List Char :=
  if 70 < natOfDigits yy then '1' :: '9' :: yy else '2' :: '0' :: yy

/-- Function `toISO` from the source: pass through canonical `YYYY-MM-DD`, expand
`YYMMDD`, reassemble `MM/DD/Y{2,4}` (pivoting only two-digit years), and
return anything else unchanged. -/
def toISO (md : List Char) : List Char :=
  if md = [] then md
  else if isoShape md then md
  else if sixDigitShape md then
    let yy := md.take 2
    let mm := (md.drop 2).take 2
    let dd := md.drop 4
    expandYY yy ++ '-' :: (mm ++ '-' :: dd)
  else if slashShape md then
    match md with
    | m1 :: m2 :: '/' :: d1 :: d2 :: '/' :: ys =>
      let y := if ys.length = 2 then expandYY ys else ys
      y ++ '-' :: (m1 :: m2 :: '-' :: [d1, d2])
    | _ => md
  else md

deriving instance DecidableEq for Except

/-- The record extracted from the located report line. -/
structure ParsedRecord where
  market : List Char
  reportDate : List Char
  nonCommLong : ℚ
  nonCommShort : ℚ
deriving DecidableEq, Repr

/-- One step of the hand-rolled CSV scanner: a `"` toggles quote mode (and is
dropped), a `,` outside quotes ends the field, anything else accumulates. -/
def csvStep (st : List (List Char) × List Char × Bool) (ch : Char) :
    List (List Char) × List Char × Bool :=
  let (out, cur, inQuotes) := st
  if ch = '"' then (out, cur, !inQuotes)
  else if ch = ',' ∧ !inQuotes then (out ++ [cur], [], inQuotes)
  else (out, cur ++ [ch], inQuotes)

/-- Function `parseCSVLine` from the source: scan with quote toggling, push the last
field, then trim every field. -/
def parseCSVLine (line : List Char) : List (List Char) :=
  let st := line.foldl csvStep ([], [], false)
  (st.1 ++ [st.2.1]).map jsTrim

/-- The source's `replace(/^"|"$/g,'')`: drop one leading and one trailing quote. -/
def stripEdgeQuotes (s : List Char) : List Char :=
  let s1 := match s with
    | '"' :: rest => rest
    | _ => s
  match s1.reverse with
  | '"' :: rest => rest.reverse
  | _ => s1

/-- The date token used by the CSV record parser:
`cols[CSV_IDX_DATE_ISO] || cols[1]` (an empty field 2 is falsy). -/
def csvDateTok (cols : List (List Char)) : List Char :=
  if cols.getD 2 [] = [] then cols.getD 1 [] else cols.getD 2 []

/-- Function `parseCSVRecord` from the source (CSV indices: market 0, ISO date 2,
non-commercial long 8, short 9). -/
def parseCSVRecord (line : List Char) : Except String ParsedRecord :=
  let cols := parseCSVLine line
  if cols.length < 10 then
    Except.error "CSV line too short to map Non-Comm columns"
  else
    Except.ok
      { market := stripEdgeQuotes (cols.getD 0 [])
        reportDate := toISO (csvDateTok cols)
        nonCommLong := toNumber (cols.get? 8)
        nonCommShort := toNumber (cols.get? 9) }

/-- Worker for `splitWs2` (split on `/\s{2,}/`). `cur` is the reversed
current token; `skipping` means we are inside a separator run. -/
def sw2 (cur : List Char) (skipping : Bool) : List Char → List (List Char)
  | [] => [cur.reverse]
  | c :: r =>
    if skipping then
      if isWs c then sw2 cur true r
      else sw2 [c] false r
    else
      if isWs c then
        match r with
        | [] => [(c :: cur).reverse]
        | d :: r2 =>
          if isWs d then cur.reverse :: sw2 [] true r2
          else sw2 (d :: c :: cur) false r2
      else sw2 (c :: cur) false r

/-- The source's `split(/\s{2,}/)`: split on runs of two or more whitespace characters;
a lone whitespace character stays inside its token. -/
def splitWs2 (l : List Char) : List (List Char) := sw2 [] false l

/-- The fixed-width column list: `line.trim().split(/\s{2,}/)`. -/
def fwParts (line : List Char) : List (List Char) := splitWs2 (jsTrim line)

/-- The probing loop of `parseFixedWidth`: first index pair whose decoded
values have a strictly positive member. -/
def probePairs (parts : List (List Char)) : List (Nat × Nat) → Option (ℚ × ℚ)
  | [] => none
  | (i, j) :: rest =>
    let a := toNumber (parts.get? i)
    let b := toNumber (parts.get? j)
    if 0 < a ∨ 0 < b then some (a, b) else probePairs parts rest

/-- Function `parseFixedWidth` from the source: trim, split on `/\s{2,}/`, require at
least five columns, then probe the pairs (2,3), (3,4), (4,5), (5,6). -/
def parseFixedWidth (line : List Char) : Except String ParsedRecord :=
  let parts := fwParts line
  if parts.length < 5 then Except.error "Unexpected fixed-width layout"
  else
    match probePairs parts [(2, 3), (3, 4), (4, 5), (5, 6)] with
    | some (a, b) =>
      Except.ok
        { market := parts.getD 0 []
          reportDate := toISO (parts.getD 1 [])
          nonCommLong := a
          nonCommShort := b }
    | none => Except.error "Could not infer Non-Comm columns in fixed-width line"

/-- Substring test, the semantics of JS `String.prototype.includes`. -/
def containsSub (hay needle : List Char) : Bool :=
  match hay with
  | [] => needle.isEmpty
  | _ :: t => needle.isPrefixOf hay || containsSub t needle

/-- JS `Array.prototype.findIndex`; `none` models the `-1` result. -/
def jsFindIndex (p : α → Bool) : List α → Option Nat
  | [] => none
  | a :: t => if p a then some 0 else (jsFindIndex p t).map (fun i => i + 1)

/-- The module-level `candidatePatterns` list. -/
def candidatePatterns : List (List Char) :=
  ["NASDAQ MINI - CHICAGO MERCANTILE EXCHANGE".data,
   "E-MINI NASDAQ-100".data,
   "MICRO E-MINI NASDAQ-100".data]

/-- The per-pattern loop of `findTargetLine` at the index level: for each
pattern in order, `findIndex` over the pre-normalised lines. -/
def findPatIdx (nls : List (List Char)) : List (List Char) → Option Nat
  | [] => none
  | pat :: ps =>
    match jsFindIndex (fun nl => containsSub nl (norm pat)) nls with
    | some i => some i
    | none => findPatIdx nls ps

/-- The fuzzy fallback of `findTargetLine`: first line whose normalised form
contains both `NASDAQ` and `MINI`. -/
def fuzzyIdx (nls : List (List Char)) : Option Nat :=
  jsFindIndex (fun nl => containsSub nl ("NASDAQ".data) && containsSub nl ("MINI".data)) nls

/-- Index of the line `findTargetLine` returns, for a given pattern list. -/
def findTargetIdx (pats lines : List (List Char)) : Option Nat :=
  match findPatIdx (lines.map norm) pats with
  | some i => some i
  | none => fuzzyIdx (lines.map norm)

/-- Function `findTargetLine` generalised over the pattern list: the returned line is
the original (non-normalised) one at the found index. -/
def findTargetLineWith (pats lines : List (List Char)) : Option (List Char) :=
  match findTargetIdx pats lines with
  | some i => lines.get? i
  | none => none

/-- Function `findTargetLine` from the source (with the module's pattern list). -/
def findTargetLine (lines : List (List Char)) : Option (List Char) :=
  findTargetLineWith candidatePatterns lines

/-- One row of the persisted `cot.rows`. -/
structure CotRow where
  label : List Char
  value : ℚ
  prev : Option ℚ
  max : ℚ
deriving DecidableEq, Repr

/-- The `cot` object of the output artifact. -/
structure Cot where
  weekEnding : List Char
  source : List Char
  instrument : List Char
  rows : List CotRow
deriving DecidableEq, Repr

/-- One row of the manual AAII overlay. -/
structure AaiiRow where
  label : List Char
  pct : ℚ
  prev : ℚ
deriving DecidableEq, Repr

/-- The `aaii` object of the output artifact. -/
structure Aaii where
  weekEnding : List Char
  source : List Char
  data : List AaiiRow
deriving DecidableEq, Repr

/-- The persisted output artifact (`data/sentiment.json`); the previous
run's artifact is the prior snapshot. -/
structure Artifact where
  cot : Cot
  aaii : Aaii
  updated : List Char
  version : Nat
deriving DecidableEq, Repr

/-- The six environment-provided AAII readings, already coerced to numbers
with the script's `Number(...)||0` default. -/
structure EnvVals where
  bullish : ℚ
  bullishPrev : ℚ
  neutral : ℚ
  neutralPrev : ℚ
  bearish : ℚ
  bearishPrev : ℚ
deriving DecidableEq, Repr

/-- One step of the reconciler's row loop: each of the three labels
overwrites its accumulator on match (the last matching row wins). -/
def reconStep (acc : Option ℚ × Option ℚ × Option ℚ) (r : CotRow) :
    Option ℚ × Option ℚ × Option ℚ :=
  let (n, l, s) := acc
  (if r.label = "Non-Comm Net".data then some r.value else n,
   if r.label = "Non-Comm Long".data then some r.value else l,
   if r.label = "Non-Comm Short".data then some r.value else s)

/-- The snapshot-reconciliation block of `main`: previous (net, long, short)
values are looked up only when `prev?.cot?.weekEnding` is truthy (non-empty)
and differs from the new record's report date. -/
def reconcile (prev : Option Artifact) (reportDate : List Char) :
    Option ℚ × Option ℚ × Option ℚ :=
  match prev with
  | none => (none, none, none)
  | some p =>
    if p.cot.weekEnding ≠ [] ∧ p.cot.weekEnding ≠ reportDate then
      p.cot.rows.foldl reconStep (none, none, none)
    else (none, none, none)

/-- Exact rational subtraction computed on numerator/denominator pairs;
`qSub_eq_sub` below shows it is subtraction (spelled this way because the
kernel evaluates `Rat.divInt` but not `Rat.sub` on literals). -/
def qSub (a b : ℚ) : ℚ :=
  Rat.divInt (a.num * (b.den : Int) - b.num * (a.den : Int)) ((a.den : Int) * (b.den : Int))

theorem qSub_eq_sub (a b : ℚ) : qSub a b = a - b := by
  have ha : ((a.den : ℚ)) ≠ 0 := Nat.cast_ne_zero.mpr a.den_nz
  have hb : ((b.den : ℚ)) ≠ 0 := Nat.cast_ne_zero.mpr b.den_nz
  conv_rhs => rw [← Rat.num_div_den a, ← Rat.num_div_den b]
  rw [div_sub_div _ _ ha hb, qSub, Rat.divInt_eq_div]
  push_cast
  ring_nf

/-- The source's `split(/\r?\n/)` on the fetched body. -/
def splitLines : List Char → List (List Char)
  | [] => [[]]
  | '\r' :: '\n' :: rest => [] :: splitLines rest
  | '\n' :: rest => [] :: splitLines rest
  | c :: rest =>
    match splitLines rest with
    | [] => [[c]]
    | l :: ls => (c :: l) :: ls

/-- The source's `rawText.split(/\r?\n/).filter(l=>l.trim())`. -/
def goodLines (raw : List Char) : List (List Char) :=
  (splitLines raw).filter (fun l => !(jsTrim l).isEmpty)

/-- The `cot` object `main` assembles. -/
def buildCot (parsed : ParsedRecord) (pn pl ps : Option ℚ) : Cot :=
  { weekEnding := parsed.reportDate
    source := "cftc-direct".data
    instrument := parsed.market
    rows :=
      [{ label := "Non-Comm Net".data
         value := qSub parsed.nonCommLong parsed.nonCommShort
         prev := pn, max := 500000 },
       { label := "Non-Comm Long".data
         value := parsed.nonCommLong
         prev := pl, max := 600000 },
       { label := "Non-Comm Short".data
         value := parsed.nonCommShort
         prev := ps, max := 600000 }] }

/-- The `aaii` object `main` assembles from the environment readings. -/
def buildAaii (reportDate : List Char) (env : EnvVals) : Aaii :=
  { weekEnding := reportDate
    source := "manual".data
    data :=
      [{ label := "Bullish".data, pct := env.bullish, prev := env.bullishPrev },
       { label := "Neutral".data, pct := env.neutral, prev := env.neutralPrev },
       { label := "Bearish".data, pct := env.bearish, prev := env.bearishPrev }] }

/-- The pure part of `main` after a successful fetch: locate the target
line, parse it by format (comma present ⇒ CSV), reconcile with the prior
snapshot, and assemble the output artifact. Any `Except.error` models a
thrown error reaching `main().catch`. -/
def buildOutput (prev : Option Artifact) (raw : List Char) (env : EnvVals)
    (now : List Char) : Except String Artifact :=
  let lines := goodLines raw
  match findTargetLine lines with
  | none => Except.error "Target market line not found in CFTC file"
  | some target =>
    (if target.contains ',' then parseCSVRecord target else parseFixedWidth target).bind
      (fun parsed =>
        let (pn, pl, ps) := reconcile prev parsed.reportDate
        Except.ok
          { cot := buildCot parsed pn pl ps
            aaii := buildAaii parsed.reportDate env
            updated := now
            version := 1 })

/-- The whole run as a state transformer on the persisted artifact: the
first component is the file contents after the run (the script writes
`OUT_PATH` only as its final step, so on any thrown error the old artifact
survives), the second is the process exit code (`main().catch` exits 1). -/
def runScript (fsState : Option Artifact) (fetched : Except String (List Char))
    (env : EnvVals) (now : List Char) : Option Artifact × Nat :=
  match fetched.bind (fun raw => buildOutput fsState raw env now) with
  | Except.ok art => (some art, 0)
  | Except.error _ => (fsState, 1)

theorem char_toNat_ofNat (n : Nat) (h : n.isValidChar) : (Char.ofNat n).toNat = n := by
  simp only [Char.ofNat, dif_pos h, Char.ofNatAux, Char.toNat, UInt32.toNat]
  simp

theorem upChar_idem (c : Char) : upChar (upChar c) = upChar c := by
  unfold upChar
  by_cases h : 97 ≤ c.toNat ∧ c.toNat ≤ 122
  · rw [if_pos h]
    have ht : (Char.ofNat (c.toNat - 32)).toNat = c.toNat - 32 :=
      char_toNat_ofNat _ (Or.inl (by omega))
    rw [if_neg (by omega)]
  · rw [if_neg h, if_neg h]

theorem isWs_upChar (c : Char) : isWs (upChar c) = isWs c := by
  unfold upChar
  by_cases h : 97 ≤ c.toNat ∧ c.toNat ≤ 122
  · rw [if_pos h]
    have ht : (Char.ofNat (c.toNat - 32)).toNat = c.toNat - 32 :=
      char_toNat_ofNat _ (Or.inl (by omega))
    have h1 : isWs (Char.ofNat (c.toNat - 32)) = false := by
      simp only [isWs, isWsCode, decide_eq_false_iff_not, ht]; omega
    have h2 : isWs c = false := by
      simp only [isWs, isWsCode, decide_eq_false_iff_not]; omega
    rw [h1, h2]
  · rw [if_neg h]

theorem isWs_dashFix (c : Char) : isWs (dashFix c) = isWs c := by
  unfold dashFix
  by_cases h : isDashVariant c = true
  · rw [if_pos h]
    simp only [isDashVariant, decide_eq_true_eq] at h
    have h2 : isWs c = false := by
      simp only [isWs, isWsCode, decide_eq_false_iff_not]; omega
    rw [h2]; decide
  · rw [if_neg h]

theorem isWs_canonChar (c : Char) : isWs (canonChar c) = isWs c := by
  rw [canonChar, isWs_upChar, isWs_dashFix]

theorem isDashVariant_dashFix (c : Char) : isDashVariant (dashFix c) = false := by
  unfold dashFix
  by_cases h : isDashVariant c = true
  · rw [if_pos h]; decide
  · rw [if_neg h]; exact Bool.not_eq_true _ ▸ (by simpa using h)

theorem isDashVariant_upChar (c : Char) (h : isDashVariant c = false) :
    isDashVariant (upChar c) = false := by
  unfold upChar
  by_cases hc : 97 ≤ c.toNat ∧ c.toNat ≤ 122
  · rw [if_pos hc]
    have ht : (Char.ofNat (c.toNat - 32)).toNat = c.toNat - 32 :=
      char_toNat_ofNat _ (Or.inl (by omega))
    simp only [isDashVariant, decide_eq_false_iff_not, ht]
    omega
  · rw [if_neg hc]; exact h

theorem dashFix_of_not_variant (c : Char) (h : isDashVariant c = false) :
    dashFix c = c := by
  unfold dashFix
  rw [if_neg (by simp [h])]

theorem canonChar_idem (c : Char) : canonChar (canonChar c) = canonChar c := by
  unfold canonChar
  rw [dashFix_of_not_variant _ (isDashVariant_upChar _ (isDashVariant_dashFix c)),
    upChar_idem]

theorem collapseGo_cons_not_ws (b : Bool) (c : Char) (r : List Char) (h : isWs c = false) :
    collapseGo b (c :: r) = c :: collapseGo false r := by
  simp [collapseGo, h]

theorem collapseGo_cons_ws (c : Char) (r : List Char) (h : isWs c = true) :
    collapseGo false (c :: r) = ' ' :: collapseGo true r := by
  simp [collapseGo, h]

theorem collapseGo_true_cons_ws (c : Char) (r : List Char) (h : isWs c = true) :
    collapseGo true (c :: r) = collapseGo true r := by
  simp [collapseGo, h]

theorem collapseGo_true_eq (r : List Char) :
    collapseGo true r = collapseGo false (r.dropWhile isWs) := by
  induction r with
  | nil => rfl
  | cons c r ih =>
    by_cases h : isWs c = true
    · rw [collapseGo_true_cons_ws _ _ h, List.dropWhile_cons, if_pos h, ih]
    · have h' : isWs c = false := by simpa using h
      rw [List.dropWhile_cons, if_neg (by simp [h']),
        collapseGo_cons_not_ws _ _ _ h', collapseGo_cons_not_ws _ _ _ h']

theorem dropWhile_collapseGo_true (r : List Char) :
    (collapseGo true r).dropWhile isWs = collapseGo true r := by
  induction r with
  | nil => rfl
  | cons c r ih =>
    by_cases h : isWs c = true
    · rw [collapseGo_true_cons_ws _ _ h, ih]
    · have h' : isWs c = false := by simpa using h
      rw [collapseGo_cons_not_ws _ _ _ h', List.dropWhile_cons, if_neg (by simp [h'])]

theorem dropLead_collapseWs (m : List Char) :
    dropLead (collapseWs m) = collapseWs (dropLead m) := by
  cases m with
  | nil => rfl
  | cons c r =>
    by_cases h : isWs c = true
    · show ((collapseGo false (c :: r)).dropWhile isWs) = collapseGo false ((c :: r).dropWhile isWs)
      rw [collapseGo_cons_ws _ _ h, List.dropWhile_cons,
        if_pos (by decide : isWs ' ' = true), dropWhile_collapseGo_true,
        List.dropWhile_cons, if_pos h, collapseGo_true_eq]
    · have h' : isWs c = false := by simpa using h
      show ((collapseGo false (c :: r)).dropWhile isWs) = collapseGo false ((c :: r).dropWhile isWs)
      rw [collapseGo_cons_not_ws _ _ _ h', List.dropWhile_cons, if_neg (by simp [h']),
        List.dropWhile_cons, if_neg (by simp [h']), collapseGo_cons_not_ws _ _ _ h']

/-- Worker splitting a string into its maximal non-whitespace runs;
`cur` is the reversed word under construction. -/
def wordsGo (cur : List Char) : List Char → List (List Char)
  | [] => if cur.isEmpty then [] else [cur.reverse]
  | c :: r =>
    if isWs c then
      if cur.isEmpty then wordsGo [] r else cur.reverse :: wordsGo [] r
    else wordsGo (c :: cur) r

/-- The maximal non-whitespace runs ("words") of a string. -/
def wordsOf (l : List Char) : List (List Char) := wordsGo [] l

/-- Join words with single spaces (the canonical shape `norm` produces). -/
def joinWords : List (List Char) → List Char
  | [] => []
  | [w] => w
  | w :: ws => w ++ ' ' :: joinWords ws

theorem joinWords_cons_cons (w w' : List Char) (ws : List (List Char)) :
    joinWords (w :: w' :: ws) = w ++ ' ' :: joinWords (w' :: ws) := rfl

theorem wordsGo_nil_ne (cur : List Char) (hcur : cur ≠ []) :
    wordsGo cur [] = [cur.reverse] := by
  simp [wordsGo, List.isEmpty_iff, hcur]

theorem wordsGo_cons_ws (cur : List Char) (c : Char) (r : List Char)
    (h : isWs c = true) (hcur : cur ≠ []) :
    wordsGo cur (c :: r) = cur.reverse :: wordsGo [] r := by
  simp [wordsGo, h, List.isEmpty_iff, hcur]

theorem wordsGo_cons_not_ws (cur : List Char) (c : Char) (r : List Char)
    (h : isWs c = false) :
    wordsGo cur (c :: r) = wordsGo (c :: cur) r := by
  simp [wordsGo, h]

theorem wordsOf_cons_ws (c : Char) (r : List Char) (h : isWs c = true) :
    wordsOf (c :: r) = wordsOf r := by
  simp [wordsOf, wordsGo, h]

theorem wordsGo_ne_nil (cur : List Char) (r : List Char) (hcur : cur ≠ []) :
    wordsGo cur r =
      (cur.reverse ++ r.takeWhile (fun d => !isWs d)) ::
        wordsOf (r.dropWhile (fun d => !isWs d)) := by
  induction r generalizing cur with
  | nil =>
    rw [wordsGo_nil_ne _ hcur]
    simp [wordsOf, wordsGo]
  | cons c r ih =>
    by_cases h : isWs c = true
    · have h2 : (fun d => !isWs d) c = false := by simp [h]
      rw [List.takeWhile_cons, List.dropWhile_cons]
      simp only [h2, Bool.false_eq_true, if_false, List.append_nil]
      rw [wordsGo_cons_ws _ _ _ h hcur, wordsOf_cons_ws _ _ h]
      simp [wordsOf]
    · have h' : isWs c = false := by simpa using h
      have h2 : (fun d => !isWs d) c = true := by simp [h']
      rw [List.takeWhile_cons, List.dropWhile_cons]
      simp only [h2, if_true]
      rw [wordsGo_cons_not_ws _ _ _ h', ih (c :: cur) (by simp)]
      simp

theorem wordsOf_cons_not_ws (c : Char) (r : List Char) (h : isWs c = false) :
    wordsOf (c :: r) =
      (c :: r.takeWhile (fun d => !isWs d)) ::
        wordsOf (r.dropWhile (fun d => !isWs d)) := by
  show wordsGo [] (c :: r) = _
  rw [wordsGo_cons_not_ws _ _ _ h, wordsGo_ne_nil _ _ (by simp)]
  rfl

theorem wordsOf_dropLead (r : List Char) : wordsOf (dropLead r) = wordsOf r := by
  induction r with
  | nil => rfl
  | cons c r ih =>
    by_cases h : isWs c = true
    · rw [dropLead, List.dropWhile_cons, if_pos h, ← dropLead, ih, wordsOf_cons_ws _ _ h]
    · rw [dropLead, List.dropWhile_cons, if_neg (by simp_all)]

theorem dropTrail_cons_not_ws (c : Char) (x : List Char) (h : isWs c = false) :
    dropTrail (c :: x) = c :: dropTrail x := by
  unfold dropTrail
  rw [List.reverse_cons, List.dropWhile_append]
  by_cases he : (x.reverse.dropWhile isWs).isEmpty = true
  · rw [if_pos he]
    rw [List.isEmpty_iff] at he
    rw [he]
    simp [List.dropWhile, h]
  · rw [if_neg he]
    simp

theorem dropTrail_cons_ws (c : Char) (x : List Char) (h : isWs c = true) :
    dropTrail (c :: x) = if dropTrail x = [] then [] else c :: dropTrail x := by
  unfold dropTrail
  rw [List.reverse_cons, List.dropWhile_append]
  by_cases he : (x.reverse.dropWhile isWs).isEmpty = true
  · rw [if_pos he]
    rw [List.isEmpty_iff] at he
    rw [he]
    simp [List.dropWhile, h]
  · rw [if_neg he]
    rw [List.isEmpty_iff] at he
    rw [if_neg (by simpa using he)]
    simp

theorem mem_wordsOf_ne_nil : ∀ (l w : List Char), w ∈ wordsOf l → w ≠ []
  | [], w, hw => by simp [wordsOf, wordsGo] at hw
  | c :: r, w, hw => by
    by_cases h : isWs c = true
    · rw [wordsOf_cons_ws _ _ h] at hw
      exact mem_wordsOf_ne_nil r w hw
    · have h' : isWs c = false := by simpa using h
      rw [wordsOf_cons_not_ws _ _ h'] at hw
      rcases List.mem_cons.mp hw with hw | hw
      · subst hw; simp
      · exact mem_wordsOf_ne_nil (r.dropWhile (fun d => !isWs d)) w hw
termination_by l _ _ => l.length
decreasing_by
  · simp
  · have := List.Sublist.length_le (List.dropWhile_sublist (l := r) (fun d => !isWs d))
    simp only [List.length_cons]
    omega

theorem mem_wordsOf_not_ws :
    ∀ (l w : List Char), w ∈ wordsOf l → ∀ c ∈ w, isWs c = false
  | [], w, hw, _, _ => by simp [wordsOf, wordsGo] at hw
  | d :: r, w, hw, c, hc => by
    by_cases h : isWs d = true
    · rw [wordsOf_cons_ws _ _ h] at hw
      exact mem_wordsOf_not_ws r w hw c hc
    · have h' : isWs d = false := by simpa using h
      rw [wordsOf_cons_not_ws _ _ h'] at hw
      rcases List.mem_cons.mp hw with hw | hw
      · subst hw
        rcases List.mem_cons.mp hc with hc | hc
        · subst hc; exact h'
        · have hp := List.mem_takeWhile_imp hc
          simpa using hp
      · exact mem_wordsOf_not_ws (r.dropWhile (fun e => !isWs e)) w hw c hc
termination_by l _ _ _ _ => l.length
decreasing_by
  · simp
  · have := List.Sublist.length_le (List.dropWhile_sublist (l := r) (fun e => !isWs e))
    simp only [List.length_cons]
    omega

theorem dropLead_cons_not_ws (c : Char) (x : List Char) (h : isWs c = false) :
    dropLead (c :: x) = c :: x := by
  rw [dropLead, List.dropWhile_cons, if_neg (by simp [h])]

theorem dropLead_idem (l : List Char) : dropLead (dropLead l) = dropLead l := by
  induction l with
  | nil => rfl
  | cons c r ih =>
    by_cases h : isWs c = true
    · have e : dropLead (c :: r) = dropLead r := by
        simp [dropLead, List.dropWhile_cons, h]
      rw [e, ih]
    · have h' : isWs c = false := by simpa using h
      rw [dropLead_cons_not_ws _ _ h', dropLead_cons_not_ws _ _ h']

theorem jsTrim_space_cons (x : List Char) : jsTrim (' ' :: x) = jsTrim x := by
  unfold jsTrim
  rw [dropLead, List.dropWhile_cons, if_pos (by decide)]
  rfl

theorem joinWords_cons_head (c : Char) (w : List Char) (ws : List (List Char)) :
    joinWords ((c :: w) :: ws) = c :: joinWords (w :: ws) := by
  cases ws <;> rfl

theorem joinWords_ne_nil (w : List Char) (ws : List (List Char)) (hw : w ≠ []) :
    joinWords (w :: ws) ≠ [] := by
  cases ws with
  | nil => exact hw
  | cons w' rest =>
    rw [joinWords_cons_cons]
    intro hcon
    rcases List.append_eq_nil.mp hcon with ⟨_, h2⟩
    exact List.cons_ne_nil _ _ h2

theorem collapseWs_cons_not_ws (c : Char) (r : List Char) (h : isWs c = false) :
    collapseWs (c :: r) = c :: collapseWs r :=
  collapseGo_cons_not_ws false c r h

theorem collapseWs_cons_ws (c : Char) (r : List Char) (h : isWs c = true) :
    collapseWs (c :: r) = ' ' :: collapseGo true r :=
  collapseGo_cons_ws c r h

theorem dropTrail_collapseWs_eq_jsTrim (r : List Char) (hr : dropLead r = r) :
    dropTrail (collapseWs r) = jsTrim (collapseWs r) := by
  unfold jsTrim
  rw [dropLead_collapseWs, hr]

theorem dropWhileWs_length_lt_one (l : List Char) :
    (l.dropWhile isWs).length < l.length + 1 := by
  have := List.Sublist.length_le (List.dropWhile_sublist (l := l) isWs)
  omega

theorem dropWhileWs_length_lt_two (l : List Char) :
    (l.dropWhile isWs).length < l.length + 1 + 1 := by
  have := List.Sublist.length_le (List.dropWhile_sublist (l := l) isWs)
  omega

/-- The normalising core: collapsing whitespace runs and trimming yields the
words joined by single spaces. -/
theorem jsTrim_collapseWs :
    ∀ (m : List Char), jsTrim (collapseWs m) = joinWords (wordsOf m)
  | [] => by rfl
  | c :: r => by
    by_cases h : isWs c = true
    · rw [collapseWs_cons_ws _ _ h, jsTrim_space_cons, collapseGo_true_eq]
      rw [show collapseGo false (r.dropWhile isWs) = collapseWs (dropLead r) from rfl]
      rw [jsTrim_collapseWs (dropLead r), wordsOf_dropLead, wordsOf_cons_ws _ _ h]
    · have h' : isWs c = false := by simpa using h
      rw [collapseWs_cons_not_ws _ _ h']
      rw [show jsTrim (c :: collapseWs r) = dropTrail (dropLead (c :: collapseWs r)) from rfl]
      rw [dropLead_cons_not_ws _ _ h', dropTrail_cons_not_ws _ _ h']
      rw [wordsOf_cons_not_ws _ _ h']
      rw [joinWords_cons_head]
      cases r with
      | nil => rfl
      | cons d r' =>
        by_cases hd : isWs d = true
        · have htw : (d :: r').takeWhile (fun e => !isWs e) = [] := by
            rw [List.takeWhile_cons]
            simp [hd]
          have hdw : (d :: r').dropWhile (fun e => !isWs e) = d :: r' := by
            rw [List.dropWhile_cons]
            simp [hd]
          rw [htw, hdw, wordsOf_cons_ws _ _ hd]
          rw [collapseWs_cons_ws _ _ hd]
          rw [dropTrail_cons_ws _ _ (by decide)]
          have hz : dropTrail (collapseGo true r') = joinWords (wordsOf r') := by
            rw [collapseGo_true_eq]
            rw [show collapseGo false (r'.dropWhile isWs) = collapseWs (dropLead r') from rfl]
            rw [show dropTrail (collapseWs (dropLead r')) =
                  dropTrail (dropLead (collapseWs (dropLead r'))) from by
                rw [dropLead_collapseWs, dropLead_idem]]
            rw [show dropTrail (dropLead (collapseWs (dropLead r'))) =
                  jsTrim (collapseWs (dropLead r')) from rfl]
            rw [jsTrim_collapseWs (dropLead r'), wordsOf_dropLead]
          rw [hz]
          cases hwr : wordsOf r' with
          | nil => simp [joinWords]
          | cons w rest =>
            have hne : joinWords (w :: rest) ≠ [] :=
              joinWords_ne_nil w rest (mem_wordsOf_ne_nil r' w (by rw [hwr]; simp))
            rw [if_neg hne]
            rfl
        · have hd' : isWs d = false := by simpa using hd
          have htw : (d :: r').takeWhile (fun e => !isWs e) =
              d :: r'.takeWhile (fun e => !isWs e) := by
            rw [List.takeWhile_cons]
            simp [hd']
          have hdw : (d :: r').dropWhile (fun e => !isWs e) =
              r'.dropWhile (fun e => !isWs e) := by
            rw [List.dropWhile_cons]
            simp [hd']
          rw [htw, hdw, ← wordsOf_cons_not_ws _ _ hd']
          rw [dropTrail_collapseWs_eq_jsTrim _ (dropLead_cons_not_ws _ _ hd')]
          exact congrArg _ (jsTrim_collapseWs (d :: r'))
termination_by m => m.length
decreasing_by
  all_goals simp only [dropLead, List.length_cons]
  all_goals
    first
      | exact dropWhileWs_length_lt_one _
      | exact dropWhileWs_length_lt_two _
      | omega

theorem wordsGo_nil_cons_ws (c : Char) (r : List Char) (h : isWs c = true) :
    wordsGo [] (c :: r) = wordsGo [] r := by
  simp [wordsGo, h]

theorem wordsGo_map (f : Char → Char) (hf : ∀ c, isWs (f c) = isWs c) :
    ∀ (cur l : List Char),
      wordsGo (cur.map f) (l.map f) = (wordsGo cur l).map (List.map f)
  | cur, [] => by
    simp only [List.map_nil]
    by_cases hc : cur = []
    · subst hc; rfl
    · rw [wordsGo_nil_ne _ hc, wordsGo_nil_ne _ (by simpa using hc)]
      simp [List.map_reverse]
  | cur, c :: l => by
    simp only [List.map_cons]
    by_cases h : isWs c = true
    · have hfc : isWs (f c) = true := by rw [hf]; exact h
      by_cases hc : cur = []
      · subst hc
        simp only [List.map_nil]
        rw [wordsGo_nil_cons_ws _ _ hfc, wordsGo_nil_cons_ws _ _ h]
        have := wordsGo_map f hf [] l
        simpa using this
      · rw [wordsGo_cons_ws _ _ _ hfc (by simpa using hc), wordsGo_cons_ws _ _ _ h hc,
          List.map_cons]
        have := wordsGo_map f hf [] l
        simp only [List.map_nil] at this
        rw [this]
        simp [List.map_reverse]
    · have h' : isWs c = false := by simpa using h
      have hfc : isWs (f c) = false := by rw [hf]; exact h'
      rw [wordsGo_cons_not_ws _ _ _ hfc, wordsGo_cons_not_ws _ _ _ h']
      have := wordsGo_map f hf (c :: cur) l
      simpa using this

theorem wordsOf_map (f : Char → Char) (hf : ∀ c, isWs (f c) = isWs c) (l : List Char) :
    wordsOf (l.map f) = (wordsOf l).map (List.map f) := by
  have := wordsGo_map f hf [] l
  simpa [wordsOf] using this

theorem joinWords_map (f : Char → Char) (hf : f ' ' = ' ') :
    ∀ (ws : List (List Char)),
      (joinWords ws).map f = joinWords (ws.map (List.map f))
  | [] => rfl
  | [w] => rfl
  | w :: w' :: ws => by
    rw [joinWords_cons_cons, List.map_append, List.map_cons, hf,
      joinWords_map f hf (w' :: ws)]
    rfl

/-- The words of a string with each character dash-normalised and
upper-cased: the complete abstraction `norm` retains. -/
def canonWords (s : List Char) : List (List Char) :=
  (wordsOf s).map (List.map canonChar)

/-- Two strings are renderings of the same text differing only in dash
variants, letter case, whitespace-run lengths and leading/trailing
whitespace exactly when their canonical word lists agree. -/
def sameRendering (s t : List Char) : Bool :=
  decide (canonWords s = canonWords t)

/-- Function `norm` computes the canonical words joined by single spaces. -/
theorem norm_eq_joinWords_canonWords (l : List Char) :
    norm l = joinWords (canonWords l) := by
  rw [show norm l = (jsTrim (collapseWs (l.map dashFix))).map upChar from rfl]
  rw [jsTrim_collapseWs, wordsOf_map dashFix isWs_dashFix,
    joinWords_map upChar (by decide)]
  rw [show canonWords l = (wordsOf l).map (List.map canonChar) from rfl]
  rw [List.map_map]
  apply congrArg
  apply List.map_congr_left
  intro w _
  simp only [Function.comp]
  rw [List.map_map]
  rfl

theorem wordsGo_append_word (w : List Char) (h : ∀ c ∈ w, isWs c = false) :
    ∀ (cur m : List Char), wordsGo cur (w ++ m) = wordsGo (w.reverse ++ cur) m := by
  induction w with
  | nil => intro cur m; simp
  | cons c w' ih =>
    intro cur m
    rw [List.cons_append, wordsGo_cons_not_ws _ _ _ (h c (by simp)),
      ih (fun d hd => h d (by simp [hd])) (c :: cur) m]
    simp

theorem wordsOf_word (w : List Char) (hne : w ≠ [])
    (h : ∀ c ∈ w, isWs c = false) : wordsOf w = [w] := by
  have := wordsGo_append_word w h [] []
  rw [List.append_nil] at this
  rw [wordsOf, this, List.append_nil, wordsGo_nil_ne _ (by simpa using hne),
    List.reverse_reverse]

theorem wordsOf_joinWords :
    ∀ (ws : List (List Char)), (∀ w ∈ ws, w ≠ []) →
      (∀ w ∈ ws, ∀ c ∈ w, isWs c = false) → wordsOf (joinWords ws) = ws
  | [], _, _ => rfl
  | [w], h1, h2 => by
    show wordsOf w = [w]
    exact wordsOf_word w (h1 w (by simp)) (h2 w (by simp))
  | w :: w' :: rest, h1, h2 => by
    rw [joinWords_cons_cons]
    show wordsGo [] (w ++ ' ' :: joinWords (w' :: rest)) = _
    rw [wordsGo_append_word w (h2 w (by simp)) [] _, List.append_nil,
      wordsGo_cons_ws _ _ _ (by decide) (by simpa using h1 w (by simp)),
      List.reverse_reverse]
    have ih := wordsOf_joinWords (w' :: rest)
      (fun x hx => h1 x (by simp [hx]))
      (fun x hx => h2 x (by simp [hx]))
    rw [show wordsGo [] (joinWords (w' :: rest)) = wordsOf (joinWords (w' :: rest)) from rfl,
      ih]

theorem canonWords_norm (l : List Char) : canonWords (norm l) = canonWords l := by
  unfold canonWords
  rw [norm_eq_joinWords_canonWords, wordsOf_joinWords (canonWords l)
    (fun w hw => by
      rcases List.mem_map.mp hw with ⟨w₀, hw₀, rfl⟩
      simpa using mem_wordsOf_ne_nil l w₀ hw₀)
    (fun w hw c hc => by
      rcases List.mem_map.mp hw with ⟨w₀, hw₀, rfl⟩
      rcases List.mem_map.mp hc with ⟨c₀, hc₀, rfl⟩
      rw [isWs_canonChar]
      exact mem_wordsOf_not_ws l w₀ hw₀ c₀ hc₀)]
  unfold canonWords
  rw [List.map_map]
  apply List.map_congr_left
  intro w _
  simp only [Function.comp]
  rw [List.map_map]
  apply List.map_congr_left
  intro c _
  exact canonChar_idem c

/-- Idempotence of the Text Normalizer. -/
theorem norm_idem (l : List Char) : norm (norm l) = norm l := by
  rw [norm_eq_joinWords_canonWords (norm l), canonWords_norm,
    ← norm_eq_joinWords_canonWords]

theorem norm_eq_of_sameRendering (s t : List Char) (h : sameRendering s t = true) :
    norm s = norm t := by
  rw [norm_eq_joinWords_canonWords, norm_eq_joinWords_canonWords]
  rw [show canonWords s = canonWords t from of_decide_eq_true h]

/-- The declarative Row Locator: first pattern (in declaration order) with a
matching line wins; for it, the first matching original line (top-to-bottom)
is returned; the fuzzy rule applies only if every pattern fails. -/
def findTargetSpec (pats lines : List (List Char)) : Option (List Char) :=
  match pats.findSome?
      (fun pat => lines.find? (fun l => containsSub (norm l) (norm pat))) with
  | some l => some l
  | none =>
    lines.find?
      (fun l => containsSub (norm l) ("NASDAQ".data) && containsSub (norm l) ("MINI".data))

theorem jsFindIndex_lt_length (p : α → Bool) :
    ∀ (l : List α) (i : Nat), jsFindIndex p l = some i → i < l.length
  | [], i, h => by simp [jsFindIndex] at h
  | a :: t, i, h => by
    by_cases hp : p a = true
    · simp only [jsFindIndex, hp, if_true, Option.some.injEq] at h
      simp only [List.length_cons]
      omega
    · simp only [jsFindIndex, hp, Bool.false_eq_true, if_false] at h
      cases hj : jsFindIndex p t with
      | none =>
        rw [hj] at h
        simp at h
      | some j =>
        rw [hj] at h
        simp at h
        have := jsFindIndex_lt_length p t j hj
        simp only [List.length_cons]
        omega

theorem jsFindIndex_map_get (f : List Char → List Char) (p : List Char → Bool) :
    ∀ (l : List (List Char)),
      (match jsFindIndex p (l.map f) with
       | some i => l.get? i
       | none => none) = l.find? (fun a => p (f a))
  | [] => rfl
  | a :: t => by
    by_cases hp : p (f a) = true
    · simp [jsFindIndex, hp, List.find?_cons]
    · have hp' : p (f a) = false := by simpa using hp
      simp only [List.map_cons, jsFindIndex, hp', Bool.false_eq_true, if_false,
        List.find?_cons]
      have ih := jsFindIndex_map_get f p t
      cases hj : jsFindIndex p (t.map f) with
      | none =>
        rw [hj] at ih
        simpa [hp'] using ih
      | some j =>
        rw [hj] at ih
        simpa [hp'] using ih

theorem findTargetLineWith_cons_some (pat : List Char) (ps lines : List (List Char))
    (i : Nat)
    (h : jsFindIndex (fun nl => containsSub nl (norm pat)) (lines.map norm) = some i) :
    findTargetLineWith (pat :: ps) lines = lines.get? i := by
  unfold findTargetLineWith findTargetIdx findPatIdx
  rw [h]

theorem findTargetLineWith_cons_none (pat : List Char) (ps lines : List (List Char))
    (h : jsFindIndex (fun nl => containsSub nl (norm pat)) (lines.map norm) = none) :
    findTargetLineWith (pat :: ps) lines = findTargetLineWith ps lines := by
  simp only [findTargetLineWith, findTargetIdx]
  rw [show findPatIdx (lines.map norm) (pat :: ps) = findPatIdx (lines.map norm) ps from by
    simp only [findPatIdx, h]]

theorem findTargetSpec_cons (pat : List Char) (ps lines : List (List Char)) :
    findTargetSpec (pat :: ps) lines =
      match lines.find? (fun l => containsSub (norm l) (norm pat)) with
      | some l => some l
      | none => findTargetSpec ps lines := by
  unfold findTargetSpec
  rw [List.findSome?_cons]
  cases lines.find? (fun l => containsSub (norm l) (norm pat)) <;> simp

/-- The Row Locator equals its declarative description: patterns in
declaration order, first (original) line wins, fuzzy fallback only when all
exact patterns fail, `none` when neither succeeds. -/
theorem findTargetLineWith_eq_spec :
    ∀ (pats lines : List (List Char)),
      findTargetLineWith pats lines = findTargetSpec pats lines
  | [], lines => by
    show (match fuzzyIdx (lines.map norm) with
          | some i => lines.get? i
          | none => none) = _
    unfold findTargetSpec
    rw [show (([] : List (List Char)).findSome?
        (fun pat => lines.find? (fun l => containsSub (norm l) (norm pat)))) = none from rfl]
    exact jsFindIndex_map_get norm
      (fun nl => containsSub nl ("NASDAQ".data) && containsSub nl ("MINI".data)) lines
  | pat :: ps, lines => by
    rw [findTargetSpec_cons]
    cases h : jsFindIndex (fun nl => containsSub nl (norm pat)) (lines.map norm) with
    | some i =>
      rw [findTargetLineWith_cons_some pat ps lines i h]
      have hb := jsFindIndex_map_get norm (fun nl => containsSub nl (norm pat)) lines
      rw [h] at hb
      have hlt : i < lines.length := by
        have := jsFindIndex_lt_length _ (lines.map norm) i h
        simpa using this
      have hx : lines.get? i = some (lines[i]) := by
        rw [List.get?_eq_getElem?]
        exact List.getElem?_eq_getElem hlt
      rw [← hb, hx]
      show some lines[i] =
        match lines.get? i with
        | some l => some l
        | none => findTargetSpec ps lines
      rw [hx]
    | none =>
      rw [findTargetLineWith_cons_none pat ps lines h]
      have hb := jsFindIndex_map_get norm (fun nl => containsSub nl (norm pat)) lines
      rw [h] at hb
      rw [← hb]
      exact findTargetLineWith_eq_spec ps lines

/-- Label lookup as the loop performs it: the last matching row wins,
falling back to a default. -/
def lookupLastD (rows : List CotRow) (lab : List Char) (dflt : Option ℚ) : Option ℚ :=
  match rows.reverse.find? (fun r => decide (r.label = lab)) with
  | some r => some r.value
  | none => dflt

/-- Value of the last row carrying the given label, if any. -/
def lookupLast (rows : List CotRow) (lab : List Char) : Option ℚ :=
  lookupLastD rows lab none

theorem lookupLastD_cons (r : CotRow) (rs : List CotRow) (lab : List Char)
    (dflt : Option ℚ) :
    lookupLastD (r :: rs) lab dflt =
      lookupLastD rs lab (if r.label = lab then some r.value else dflt) := by
  unfold lookupLastD
  rw [List.reverse_cons, List.find?_append]
  cases hf : rs.reverse.find? (fun x => decide (x.label = lab)) with
  | some x => simp
  | none =>
    by_cases hp : r.label = lab
    · simp [List.find?_cons, hp]
    · simp [List.find?_cons, hp]

theorem foldl_reconStep (rows : List CotRow) :
    ∀ (init : Option ℚ × Option ℚ × Option ℚ),
      rows.foldl reconStep init =
        (lookupLastD rows ("Non-Comm Net".data) init.1,
         lookupLastD rows ("Non-Comm Long".data) init.2.1,
         lookupLastD rows ("Non-Comm Short".data) init.2.2) := by
  induction rows with
  | nil => intro init; simp [lookupLastD]
  | cons r rs ih =>
    intro init
    obtain ⟨n, l, s⟩ := init
    rw [List.foldl_cons, ih (reconStep (n, l, s) r)]
    rw [lookupLastD_cons, lookupLastD_cons, lookupLastD_cons]
    rfl

theorem reconcile_copies (p : Artifact) (rd : List Char)
    (h1 : p.cot.weekEnding ≠ []) (h2 : p.cot.weekEnding ≠ rd) :
    reconcile (some p) rd =
      (lookupLast p.cot.rows ("Non-Comm Net".data),
       lookupLast p.cot.rows ("Non-Comm Long".data),
       lookupLast p.cot.rows ("Non-Comm Short".data)) := by
  show (if p.cot.weekEnding ≠ [] ∧ p.cot.weekEnding ≠ rd
        then p.cot.rows.foldl reconStep (none, none, none)
        else (none, none, none)) = _
  rw [if_pos ⟨h1, h2⟩, foldl_reconStep]
  rfl

theorem findPatIdx_congr (nls : List (List Char)) :
    ∀ (pats pats' : List (List Char)),
      List.Forall₂ (fun p q => norm p = norm q) pats pats' →
      findPatIdx nls pats = findPatIdx nls pats'
  | _, _, List.Forall₂.nil => rfl
  | _, _, List.Forall₂.cons hpq htail => by
    simp only [findPatIdx]
    rw [hpq, findPatIdx_congr nls _ _ htail]

theorem findTargetLineWith_congr_pats (pats pats' lines : List (List Char))
    (h : List.Forall₂ (fun p q => norm p = norm q) pats pats') :
    findTargetLineWith pats lines = findTargetLineWith pats' lines := by
  unfold findTargetLineWith findTargetIdx
  rw [findPatIdx_congr (lines.map norm) pats pats' h]

theorem findTargetIdx_congr_lines (pats lines lines' : List (List Char))
    (h : lines.map norm = lines'.map norm) :
    findTargetIdx pats lines = findTargetIdx pats lines' := by
  unfold findTargetIdx
  rw [h]

theorem map_norm_congr (lines lines' : List (List Char))
    (h : List.Forall₂ (fun p q => sameRendering p q = true) lines lines') :
    lines.map norm = lines'.map norm := by
  induction h with
  | nil => rfl
  | cons hpq _ ih =>
    simp only [List.map_cons]
    rw [norm_eq_of_sameRendering _ _ hpq, ih]

theorem decValue_nonneg (ip fp : List Char) (e : Int) : 0 ≤ decValue ip fp e := by
  unfold decValue
  by_cases h : (0 : Int) ≤ e - (fp.length : Int)
  · rw [if_pos h]
    apply Rat.divInt_nonneg _ (by omega)
    positivity
  · rw [if_neg h]
    apply Rat.divInt_nonneg _ (by positivity)
    positivity

theorem parseDec_nonneg (t : List Char) (q : ℚ) (h : parseDec t = some q) : 0 ≤ q := by
  unfold parseDec at h
  dsimp only at h
  split at h
  · split at h
    · exact absurd h (by simp)
    · rcases Option.map_eq_some'.mp h with ⟨e, _, rfl⟩
      exact decValue_nonneg _ _ _
  · split at h
    · exact absurd h (by simp)
    · rcases Option.map_eq_some'.mp h with ⟨e, _, rfl⟩
      exact decValue_nonneg _ _ _

theorem parseRadix_nonneg (t : List Char) (q : ℚ) (h : parseRadix t = some q) : 0 ≤ q := by
  unfold parseRadix at h
  split at h
  · split at h
    · split at h
      · rcases Option.some.inj h with rfl
        positivity
      · exact absurd h (by simp)
    · split at h
      · split at h
        · rcases Option.some.inj h with rfl
          positivity
        · exact absurd h (by simp)
      · split at h
        · split at h
          · rcases Option.some.inj h with rfl
            positivity
          · exact absurd h (by simp)
        · exact parseDec_nonneg _ _ h
  · exact parseDec_nonneg _ _ h

theorem mem_jsTrim (c : Char) (l : List Char) (h : c ∈ jsTrim l) : c ∈ l := by
  unfold jsTrim dropTrail dropLead at h
  rw [List.mem_reverse] at h
  have h1 := (List.dropWhile_sublist (l := (l.dropWhile isWs).reverse) isWs).subset h
  rw [List.mem_reverse] at h1
  exact (List.dropWhile_sublist (l := l) isWs).subset h1

theorem jsNumber_nonneg_of_no_minus (s : List Char) (hm : ('-' : Char) ∉ s)
    (q : ℚ) (h : jsNumber s = some q) : 0 ≤ q := by
  unfold jsNumber at h
  dsimp only at h
  split at h
  · rcases Option.some.inj h with rfl
    exact le_refl 0
  · split at h
    · exact absurd h (by simp)
    · split at h
      · exact parseDec_nonneg _ _ h
      · rename_i heq
        exact absurd (mem_jsTrim _ _ (heq ▸ List.mem_cons_self _ _)) hm
      · exact parseRadix_nonneg _ _ h

theorem toNumber_nonneg_of_no_minus (s : List Char) (hm : ('-' : Char) ∉ s) :
    0 ≤ toNumber (some s) := by
  show 0 ≤ (jsNumber (cleanTok s)).getD 0
  cases hj : jsNumber (cleanTok s) with
  | none => exact le_refl 0
  | some q =>
    have hmc : ('-' : Char) ∉ cleanTok s := by
      intro hc
      have h1 := mem_jsTrim _ _ hc
      have h2 := List.mem_of_mem_filter h1
      have h3 := List.mem_of_mem_filter h2
      exact hm h3
    exact jsNumber_nonneg_of_no_minus _ hmc q hj

theorem toNumber_get_nonneg (parts : List (List Char))
    (hm : ∀ w ∈ parts, ('-' : Char) ∉ w) (i : Nat) :
    0 ≤ toNumber (parts.get? i) := by
  cases hg : parts.get? i with
  | none => exact le_refl 0
  | some w => exact toNumber_nonneg_of_no_minus w (hm w (List.get?_mem hg))

theorem probePairs_mem (parts : List (List Char)) :
    ∀ (ps : List (Nat × Nat)) (a b : ℚ), probePairs parts ps = some (a, b) →
      ∃ i j, (i, j) ∈ ps ∧ a = toNumber (parts.get? i) ∧ b = toNumber (parts.get? j)
  | [], a, b, h => by simp [probePairs] at h
  | (i, j) :: rest, a, b, h => by
    unfold probePairs at h
    dsimp only at h
    split at h
    · rcases Prod.mk.inj (Option.some.inj h) with ⟨rfl, rfl⟩
      exact ⟨i, j, by simp, rfl, rfl⟩
    · rcases probePairs_mem parts rest a b h with ⟨i', j', hmem, ha, hb⟩
      exact ⟨i', j', by simp [hmem], ha, hb⟩

/-- The slash shape exactly as claim C4 words it: `MM/DD/YY` or
`MM/DD/YYYY`, i.e. a two- or four-digit year only. -/
def slashShapeClaim (md : List Char) : Bool :=
  match md with
  | m1 :: m2 :: '/' :: d1 :: d2 :: '/' :: ys =>
    isDigitC m1 && isDigitC m2 && isDigitC d1 && isDigitC d2 &&
    ys.all isDigitC && decide (ys.length = 2 ∨ ys.length = 4)
  | _ => false

/-- The Date Decoder as claim C4 describes it: identical to `toISO` except
that only two- and four-digit years are accepted in the slash format, every
other token being returned unchanged. -/
def toISOClaim (md : List Char) : List Char :=
  if md = [] then md
  else if isoShape md then md
  else if sixDigitShape md then
    expandYY (md.take 2) ++ '-' :: ((md.drop 2).take 2 ++ '-' :: md.drop 4)
  else if slashShapeClaim md then
    match md with
    | m1 :: m2 :: '/' :: d1 :: d2 :: '/' :: ys =>
      (if ys.length = 2 then expandYY ys else ys) ++ '-' :: (m1 :: m2 :: '-' :: [d1, d2])
    | _ => md
  else md

/-- C4 counterexample: the regex `/^\d{2}\/\d{2}\/\d{2,4}$/` also accepts a
THREE-digit year, so `"08/05/123"` is not "returned unchanged" as the claim
requires for tokens that are neither `MM/DD/YY` nor `MM/DD/YYYY`: the code
rewrites it to `"123-08-05"`. -/
theorem c4_counterexample :
    toISO ("08/05/123".data) = "123-08-05".data ∧
    toISOClaim ("08/05/123".data) = "08/05/123".data ∧
    toISO ("08/05/123".data) ≠ toISOClaim ("08/05/123".data) := by
  refine ⟨by decide, by decide, by decide⟩

/-- C4 (amended): `toISO` is total; it maps a canonical `YYYY-MM-DD` token
to itself; a six-digit `YYMMDD` token to `YYYY-MM-DD` with the two-digit
year expanded to `19YY` when its value exceeds 70 and `20YY` otherwise; an
`MM/DD/Y{2,4}` token (two- THREE- or four-digit year) is reassembled as
`Y-MM-DD`, the pivot applied only to two-digit years; every other token is
returned unchanged. The spec's examples hold. -/
theorem c4_date_decoder_amended :
    (∀ md : List Char, isoShape md = true → toISO md = md) ∧
    (∀ md : List Char, isoShape md = false → sixDigitShape md = true →
      toISO md = expandYY (md.take 2) ++ '-' :: ((md.drop 2).take 2 ++ '-' :: md.drop 4)) ∧
    (∀ (m1 m2 d1 d2 : Char) (ys : List Char),
      isoShape (m1 :: m2 :: '/' :: d1 :: d2 :: '/' :: ys) = false →
      sixDigitShape (m1 :: m2 :: '/' :: d1 :: d2 :: '/' :: ys) = false →
      slashShape (m1 :: m2 :: '/' :: d1 :: d2 :: '/' :: ys) = true →
      toISO (m1 :: m2 :: '/' :: d1 :: d2 :: '/' :: ys) =
        (if ys.length = 2 then expandYY ys else ys) ++ '-' :: (m1 :: m2 :: '-' :: [d1, d2])) ∧
    (∀ md : List Char, isoShape md = false → sixDigitShape md = false →
      slashShape md = false → toISO md = md) ∧
    toISO ("250805".data) = "2025-08-05".data ∧
    toISO ("08/05/25".data) = "2025-08-05".data ∧
    toISO ("08/05/1995".data) = "1995-08-05".data ∧
    toISO ("2025-08-05".data) = "2025-08-05".data ∧
    toISO ("not-a-date".data) = "not-a-date".data := by
  refine ⟨?_, ?_, ?_, ?_, by decide, by decide, by decide, by decide, by decide⟩
  · intro md h
    have hne : md ≠ [] := by
      intro he
      rw [he] at h
      exact absurd h (by decide)
    unfold toISO
    rw [if_neg hne, if_pos h]
  · intro md h1 h2
    have hne : md ≠ [] := by
      intro he
      rw [he] at h2
      exact absurd h2 (by decide)
    unfold toISO
    rw [if_neg hne, if_neg (by simp [h1]), if_pos h2]
  · intro m1 m2 d1 d2 ys h1 h2 h3
    unfold toISO
    rw [if_neg (by simp), if_neg (by simp [h1]), if_neg (by simp [h2]), if_pos h3]
    rfl
  · intro md h1 h2 h3
    by_cases hne : md = []
    · rw [hne]
      rfl
    · unfold toISO
      rw [if_neg hne, if_neg (by simp [h1]), if_neg (by simp [h2]), if_neg (by simp [h3])]

/-- C4 witness: the amended third branch applied to the spec example
`"08/05/25"`. -/
theorem c4_witness :
    toISO ('0' :: '8' :: '/' :: '0' :: '5' :: '/' :: ['2', '5']) =
      (if (['2', '5'] : List Char).length = 2 then expandYY ['2', '5'] else ['2', '5']) ++
        '-' :: ('0' :: '8' :: '-' :: ['0', '5']) :=
  c4_date_decoder_amended.2.2.1 '0' '8' '0' '5' ['2', '5'] (by decide) (by decide) (by decide)

/-- The Numeric Decoder as claim C5 words it: identical to `toNumber`
except that only LEADING plus signs are stripped. -/
def toNumberClaim (v : Option (List Char)) : ℚ :=
  match v with
  | none => 0
  | some s =>
    (jsNumber (jsTrim ((stripCQ s).dropWhile (fun c => c = '+')))).getD 0

/-- C5 counterexample: the code strips EVERY plus sign
(`replace(/\+/g,'')`), not only leading ones: on `"1+2"` it yields 12,
whereas stripping only leading plus signs leaves `"1+2"`, which does not
parse, so the claimed decoder yields 0. -/
theorem c5_counterexample :
    toNumber (some ("1+2".data)) = 12 ∧
    toNumberClaim (some ("1+2".data)) = 0 ∧
    toNumber (some ("1+2".data)) ≠ toNumberClaim (some ("1+2".data)) := by
  refine ⟨by decide, by decide, by decide⟩

theorem cleanTok_stripPlus (s : List Char) : cleanTok (stripPlus s) = cleanTok s := by
  unfold cleanTok stripPlus stripCQ
  rw [List.filter_filter, List.filter_filter, List.filter_filter]
  congr 1
  apply List.filter_congr
  intro a _
  by_cases hp : a = '+' <;> by_cases hq : (a = ',' ∨ a = '"') <;> simp [hp, hq]

/-- C5 (amended): `toNumber` is total, returns 0 on null/absent input,
strips thousands-separator commas, double quotes and ALL plus signs
(wherever they occur, not only leading ones), trims whitespace, parses the
remainder as a number and returns 0 whenever that fails to produce a finite
value. The spec's examples hold. -/
theorem c5_numeric_decoder_amended :
    toNumber none = 0 ∧
    (∀ s : List Char, toNumber (some s) = toNumber (some (stripPlus s))) ∧
    (∀ s : List Char, jsNumber (cleanTok s) = none → toNumber (some s) = 0) ∧
    toNumber (some ("12,345".data)) = 12345 ∧
    toNumber (some ("\"1,000\"".data)) = 1000 ∧
    toNumber (some ("+50".data)) = 50 ∧
    toNumber (some ("abc".data)) = 0 := by
  refine ⟨rfl, ?_, ?_, by decide, by decide, by decide, by decide⟩
  · intro s
    show (jsNumber (cleanTok s)).getD 0 = (jsNumber (cleanTok (stripPlus s))).getD 0
    rw [cleanTok_stripPlus]
  · intro s h
    show (jsNumber (cleanTok s)).getD 0 = 0
    rw [h]
    rfl

/-- C5 witness: the failure conjunct applied to the spec example `"abc"`. -/
theorem c5_witness : toNumber (some ("abc".data)) = 0 :=
  c5_numeric_decoder_amended.2.2.1 ("abc".data) (by decide)

/-- A prior snapshot whose `cot.weekEnding` is the empty string (falsy in
JS) but whose rows carry the three labelled values. -/
def emptyWeekSnapshot : Artifact :=
  { cot := { weekEnding := [], source := [], instrument := [],
             rows := [{ label := "Non-Comm Net".data, value := 5, prev := none, max := 500000 },
                      { label := "Non-Comm Long".data, value := 6, prev := none, max := 600000 },
                      { label := "Non-Comm Short".data, value := 7, prev := none, max := 600000 }] },
    aaii := { weekEnding := [], source := [], data := [] },
    updated := [], version := 1 }

/-- C1 counterexample: the code guards the copy with the TRUTHINESS of
`prev?.cot?.weekEnding`, so a prior snapshot whose `weekEnding` is the
empty string yields all-null previous values even though its `weekEnding`
differs from the new report date and all three labelled rows are present —
contradicting the claim that the values are copied whenever the prior
`weekEnding` differs from the new `reportDate`. -/
theorem c1_counterexample :
    emptyWeekSnapshot.cot.weekEnding ≠ "2025-08-05".data ∧
    lookupLast emptyWeekSnapshot.cot.rows ("Non-Comm Net".data) = some 5 ∧
    lookupLast emptyWeekSnapshot.cot.rows ("Non-Comm Long".data) = some 6 ∧
    lookupLast emptyWeekSnapshot.cot.rows ("Non-Comm Short".data) = some 7 ∧
    reconcile (some emptyWeekSnapshot) ("2025-08-05".data) = (none, none, none) := by
  refine ⟨by decide, by decide, by decide, by decide, by decide⟩

/-- C1 (amended): the Snapshot Reconciler outputs all three previous values
as null when no prior snapshot exists, when the prior `weekEnding` equals
the new record's `reportDate`, or when the prior `weekEnding` is empty
(falsy); only when it is non-empty and differs from the new `reportDate`
does each previous value become the value of the last prior row carrying
the matching label (`Non-Comm Net` / `Non-Comm Long` / `Non-Comm Short`,
null when no such row exists). -/
theorem c1_reconciler_amended :
    ∀ rd : List Char,
      reconcile none rd = (none, none, none) ∧
      (∀ p : Artifact, p.cot.weekEnding = rd →
        reconcile (some p) rd = (none, none, none)) ∧
      (∀ p : Artifact, p.cot.weekEnding = [] →
        reconcile (some p) rd = (none, none, none)) ∧
      (∀ p : Artifact, p.cot.weekEnding ≠ [] → p.cot.weekEnding ≠ rd →
        reconcile (some p) rd =
          (lookupLast p.cot.rows ("Non-Comm Net".data),
           lookupLast p.cot.rows ("Non-Comm Long".data),
           lookupLast p.cot.rows ("Non-Comm Short".data))) := by
  intro rd
  refine ⟨rfl, ?_, ?_, ?_⟩
  · intro p hp
    show (if p.cot.weekEnding ≠ [] ∧ p.cot.weekEnding ≠ rd
          then p.cot.rows.foldl reconStep (none, none, none)
          else (none, none, none)) = (none, none, none)
    rw [if_neg (by simp [hp])]
  · intro p hp
    show (if p.cot.weekEnding ≠ [] ∧ p.cot.weekEnding ≠ rd
          then p.cot.rows.foldl reconStep (none, none, none)
          else (none, none, none)) = (none, none, none)
    rw [if_neg (by simp [hp])]
  · intro p h1 h2
    exact reconcile_copies p rd h1 h2

/-- The prior snapshot of the spec's reconciliation example
(week ending 2025-07-29). -/
def priorSnapshot : Artifact :=
  { cot := { weekEnding := "2025-07-29".data, source := "cftc-direct".data,
             instrument := "X".data,
             rows := [{ label := "Non-Comm Net".data, value := 5, prev := none, max := 500000 },
                      { label := "Non-Comm Long".data, value := 6, prev := none, max := 600000 },
                      { label := "Non-Comm Short".data, value := 7, prev := none, max := 600000 }] },
    aaii := { weekEnding := [], source := [], data := [] },
    updated := [], version := 1 }

/-- C1 witness: the copy branch at the spec's example dates. -/
theorem c1_witness :
    reconcile (some priorSnapshot) ("2025-08-05".data) =
      (lookupLast priorSnapshot.cot.rows ("Non-Comm Net".data),
       lookupLast priorSnapshot.cot.rows ("Non-Comm Long".data),
       lookupLast priorSnapshot.cot.rows ("Non-Comm Short".data)) :=
  (c1_reconciler_amended ("2025-08-05".data)).2.2.2 priorSnapshot (by decide) (by decide)

/-- The synthetic CSV line of the spec's end-to-end scenario. -/
def scenarioLine : List Char :=
  "\"E-MINI NASDAQ-100 STOCK INDEX\",\"250805\",\"2025-08-05\",,,,,100000,30000,20000\"".data

/-- All six environment readings absent (`Number(undefined)||0` = 0). -/
def envZero : EnvVals := { bullish := 0, bullishPrev := 0, neutral := 0,
                           neutralPrev := 0, bearish := 0, bearishPrev := 0 }

/-- C2: delimited parsing splits on commas honouring quote-toggled
escaping, errors exactly when fewer than ten fields result, and otherwise
builds the record from field 0 (edge quotes stripped), the Date-Decoded
field 2 (falling back to field 1 when field 2 is empty/absent) and the
Numeric-Decoded fields 8 and 9; on the end-to-end scenario line the output
rows carry Net=10000, Long=30000, Short=20000 (with null `prev` on a first
run). -/
theorem c2_delimited_parsing :
    (∀ line : List Char,
      ((parseCSVLine line).length < 10 →
        parseCSVRecord line = Except.error "CSV line too short to map Non-Comm columns") ∧
      (10 ≤ (parseCSVLine line).length →
        parseCSVRecord line = Except.ok
          { market := stripEdgeQuotes ((parseCSVLine line).getD 0 [])
            reportDate := toISO (if (parseCSVLine line).getD 2 [] = []
              then (parseCSVLine line).getD 1 [] else (parseCSVLine line).getD 2 [])
            nonCommLong := toNumber ((parseCSVLine line).get? 8)
            nonCommShort := toNumber ((parseCSVLine line).get? 9) })) ∧
    parseCSVRecord scenarioLine = Except.ok
      { market := "E-MINI NASDAQ-100 STOCK INDEX".data
        reportDate := "2025-08-05".data
        nonCommLong := 30000
        nonCommShort := 20000 } ∧
    (buildOutput none scenarioLine envZero ("T".data)).map
      (fun a => a.cot.rows.map (fun r => (r.label, r.value, r.prev))) =
      Except.ok
        [("Non-Comm Net".data, (10000 : ℚ), (none : Option ℚ)),
         ("Non-Comm Long".data, 30000, none),
         ("Non-Comm Short".data, 20000, none)] := by
  refine ⟨?_, by decide, by decide⟩
  intro line
  constructor
  · intro hlt
    unfold parseCSVRecord
    dsimp only
    rw [if_pos hlt]
  · intro hge
    unfold parseCSVRecord
    dsimp only
    rw [if_neg (by omega)]
    rfl

/-- C2 witness: the success branch applied to the scenario line. -/
theorem c2_witness :
    parseCSVRecord scenarioLine = Except.ok
      { market := stripEdgeQuotes ((parseCSVLine scenarioLine).getD 0 [])
        reportDate := toISO (if (parseCSVLine scenarioLine).getD 2 [] = []
          then (parseCSVLine scenarioLine).getD 1 [] else (parseCSVLine scenarioLine).getD 2 [])
        nonCommLong := toNumber ((parseCSVLine scenarioLine).get? 8)
        nonCommShort := toNumber ((parseCSVLine scenarioLine).get? 9) } :=
  (c2_delimited_parsing.1 scenarioLine).2 (by decide)

/-- Worker for `splitSpaces2` (like `sw2` but separating only on runs of
two or more literal space characters, as claim C3 words it). -/
def ssp2 (cur : List Char) (skipping : Bool) : List Char → List (List Char)
  | [] => [cur.reverse]
  | c :: r =>
    if skipping then
      if c = ' ' then ssp2 cur true r
      else ssp2 [c] false r
    else
      if c = ' ' then
        match r with
        | [] => [(c :: cur).reverse]
        | d :: r2 =>
          if d = ' ' then cur.reverse :: ssp2 [] true r2
          else ssp2 (d :: c :: cur) false r2
      else ssp2 (c :: cur) false r

/-- Split on runs of two or more literal spaces only. -/
def splitSpaces2 (l : List Char) : List (List Char) := ssp2 [] false l

/-- The fixed-width parser as claim C3 words it ("splits on runs of two or
more spaces"): identical to `parseFixedWidth` but with a space-only split. -/
def parseFixedWidthClaim (line : List Char) : Except String ParsedRecord :=
  let parts := splitSpaces2 (jsTrim line)
  if parts.length < 5 then Except.error "Unexpected fixed-width layout"
  else
    match probePairs parts [(2, 3), (3, 4), (4, 5), (5, 6)] with
    | some (a, b) =>
      Except.ok
        { market := parts.getD 0 []
          reportDate := toISO (parts.getD 1 [])
          nonCommLong := a
          nonCommShort := b }
    | none => Except.error "Could not infer Non-Comm columns in fixed-width line"

/-- C3 counterexample: the source splits on `/\s{2,}/` — runs of two or
more WHITESPACE characters, not only spaces. On a line whose third column
is cut by a double tab the two parsers disagree: the code reads
(long, short) = (5, 7) while the space-only split described by the claim
reads (0, 8). -/
theorem c3_counterexample :
    parseFixedWidth ("MKT  01/01/25  5\t\t7  8  9".data) =
      Except.ok { market := "MKT".data, reportDate := "2025-01-01".data,
                  nonCommLong := 5, nonCommShort := 7 } ∧
    parseFixedWidthClaim ("MKT  01/01/25  5\t\t7  8  9".data) =
      Except.ok { market := "MKT".data, reportDate := "2025-01-01".data,
                  nonCommLong := 0, nonCommShort := 8 } ∧
    parseFixedWidth ("MKT  01/01/25  5\t\t7  8  9".data) ≠
      parseFixedWidthClaim ("MKT  01/01/25  5\t\t7  8  9".data) := by
  refine ⟨by decide, by decide, by decide⟩

/-- Decoded value of the i-th fixed-width column (0 when out of range). -/
def fwVal (line : List Char) (i : Nat) : ℚ := toNumber ((fwParts line).get? i)

/-- The record `parseFixedWidth` builds from an accepted column pair. -/
def fwRec (line : List Char) (i j : Nat) : ParsedRecord :=
  { market := (fwParts line).getD 0 []
    reportDate := toISO ((fwParts line).getD 1 [])
    nonCommLong := fwVal line i
    nonCommShort := fwVal line j }

/-- C3 (amended): fixed-width parsing trims the line and splits it on runs
of two or more WHITESPACE characters (`/\s{2,}/`), errors exactly when
fewer than five columns result, and otherwise probes the index pairs
(2,3), (3,4), (4,5), (5,6) in that order, returning the first pair whose
decoded values have a strictly positive member and erroring when no pair
has one. -/
theorem probePairs_cons (parts : List (List Char)) (i j : Nat) (rest : List (Nat × Nat)) :
    probePairs parts ((i, j) :: rest) =
      if 0 < toNumber (parts.get? i) ∨ 0 < toNumber (parts.get? j)
      then some (toNumber (parts.get? i), toNumber (parts.get? j))
      else probePairs parts rest := by
  rfl

/-- C3 (amended): fixed-width parsing trims the line and splits it on runs
of two or more WHITESPACE characters (`/\s{2,}/`), errors exactly when
fewer than five columns result, and otherwise probes the index pairs
(2,3), (3,4), (4,5), (5,6) in that order, returning the first pair whose
decoded values have a strictly positive member and erroring when no pair
has one. -/
theorem c3_fixed_width_amended :
    ∀ line : List Char,
      ((fwParts line).length < 5 →
        parseFixedWidth line = Except.error "Unexpected fixed-width layout") ∧
      (5 ≤ (fwParts line).length →
        parseFixedWidth line =
          (if 0 < fwVal line 2 ∨ 0 < fwVal line 3 then Except.ok (fwRec line 2 3)
           else if 0 < fwVal line 3 ∨ 0 < fwVal line 4 then Except.ok (fwRec line 3 4)
           else if 0 < fwVal line 4 ∨ 0 < fwVal line 5 then Except.ok (fwRec line 4 5)
           else if 0 < fwVal line 5 ∨ 0 < fwVal line 6 then Except.ok (fwRec line 5 6)
           else Except.error "Could not infer Non-Comm columns in fixed-width line")) := by
  intro line
  constructor
  · intro hlt
    unfold parseFixedWidth
    dsimp only
    rw [if_pos hlt]
  · intro hge
    unfold parseFixedWidth
    dsimp only
    rw [if_neg (by omega)]
    simp only [fwVal, fwRec]
    rw [probePairs_cons]
    by_cases h23 : 0 < toNumber ((fwParts line).get? 2) ∨ 0 < toNumber ((fwParts line).get? 3)
    · rw [if_pos h23, if_pos h23]
    · rw [if_neg h23, if_neg h23, probePairs_cons]
      by_cases h34 : 0 < toNumber ((fwParts line).get? 3) ∨ 0 < toNumber ((fwParts line).get? 4)
      · rw [if_pos h34, if_pos h34]
      · rw [if_neg h34, if_neg h34, probePairs_cons]
        by_cases h45 : 0 < toNumber ((fwParts line).get? 4) ∨ 0 < toNumber ((fwParts line).get? 5)
        · rw [if_pos h45, if_pos h45]
        · rw [if_neg h45, if_neg h45, probePairs_cons]
          by_cases h56 : 0 < toNumber ((fwParts line).get? 5) ∨ 0 < toNumber ((fwParts line).get? 6)
          · rw [if_pos h56, if_pos h56]
          · rw [if_neg h56, if_neg h56]
            rfl

/-- C3 witness: the amended characterisation applied to a concrete
five-column fixed-width line. -/
theorem c3_witness :
    parseFixedWidth ("NASDAQ MINI  08/05/25  1000  2000  3000".data) =
      (if 0 < fwVal ("NASDAQ MINI  08/05/25  1000  2000  3000".data) 2 ∨
          0 < fwVal ("NASDAQ MINI  08/05/25  1000  2000  3000".data) 3
       then Except.ok (fwRec ("NASDAQ MINI  08/05/25  1000  2000  3000".data) 2 3)
       else if 0 < fwVal ("NASDAQ MINI  08/05/25  1000  2000  3000".data) 3 ∨
          0 < fwVal ("NASDAQ MINI  08/05/25  1000  2000  3000".data) 4
       then Except.ok (fwRec ("NASDAQ MINI  08/05/25  1000  2000  3000".data) 3 4)
       else if 0 < fwVal ("NASDAQ MINI  08/05/25  1000  2000  3000".data) 4 ∨
          0 < fwVal ("NASDAQ MINI  08/05/25  1000  2000  3000".data) 5
       then Except.ok (fwRec ("NASDAQ MINI  08/05/25  1000  2000  3000".data) 4 5)
       else if 0 < fwVal ("NASDAQ MINI  08/05/25  1000  2000  3000".data) 5 ∨
          0 < fwVal ("NASDAQ MINI  08/05/25  1000  2000  3000".data) 6
       then Except.ok (fwRec ("NASDAQ MINI  08/05/25  1000  2000  3000".data) 5 6)
       else Except.error "Could not infer Non-Comm columns in fixed-width line") :=
  (c3_fixed_width_amended ("NASDAQ MINI  08/05/25  1000  2000  3000".data)).2 (by decide)

/-- C8 counterexample: the parsers do not guarantee non-negative fields —
a CSV line carrying `-5` in the non-commercial-long column parses
successfully into a record with a negative `nonCommLong`. -/
theorem c8_counterexample :
    parseCSVRecord ("M,250805,2025-08-05,,,,,1,-5,2".data) =
      Except.ok { market := ['M'], reportDate := "2025-08-05".data,
                  nonCommLong := -5, nonCommShort := 2 } ∧
    ((-5 : ℚ) < 0) := by
  refine ⟨by decide, by decide⟩

/-- C8 (amended): the long/short fields of a successfully parsed record
are non-negative provided the line's column tokens contain no minus sign
(the Numeric Decoder yields a negative value only from a leading minus, and
malformed or absent tokens default to 0, which is non-negative). -/
theorem c8_nonneg_amended :
    ∀ (line : List Char) (r : ParsedRecord),
      (parseCSVRecord line = Except.ok r →
        (∀ w ∈ parseCSVLine line, ('-' : Char) ∉ w) →
        0 ≤ r.nonCommLong ∧ 0 ≤ r.nonCommShort) ∧
      (parseFixedWidth line = Except.ok r →
        (∀ w ∈ fwParts line, ('-' : Char) ∉ w) →
        0 ≤ r.nonCommLong ∧ 0 ≤ r.nonCommShort) := by
  intro line r
  constructor
  · intro h hm
    unfold parseCSVRecord at h
    dsimp only at h
    split at h
    · exact absurd h (by simp)
    · rcases Except.ok.inj h with rfl
      exact ⟨toNumber_get_nonneg _ hm 8, toNumber_get_nonneg _ hm 9⟩
  · intro h hm
    unfold parseFixedWidth at h
    dsimp only at h
    split at h
    · exact absurd h (by simp)
    · split at h
      · rename_i ab a b heq
        rcases Except.ok.inj h with rfl
        rcases probePairs_mem (fwParts line) _ a b heq with ⟨i, j, _, ha, hb⟩
        subst ha
        subst hb
        exact ⟨toNumber_get_nonneg _ hm i, toNumber_get_nonneg _ hm j⟩
      · exact absurd h (by simp)

/-- C8 witness: the CSV part applied to a minus-free line. -/
theorem c8_witness :
    (0 : ℚ) ≤ (ParsedRecord.mk ['M'] ("2025-08-05".data) 2 3).nonCommLong ∧
    (0 : ℚ) ≤ (ParsedRecord.mk ['M'] ("2025-08-05".data) 2 3).nonCommShort :=
  (c8_nonneg_amended ("M,250805,,,,,,1,2,3".data)
      (ParsedRecord.mk ['M'] ("2025-08-05".data) 2 3)).1 (by decide) (by decide)

/-- C10: on a fixed-width line with at least five columns, a probed index
beyond the column count decodes to 0 (absent token), and `parseFixedWidth`
is total with only its second declared error possible: it returns a record
or the no-positive-pair error, never an out-of-range failure. -/
theorem c10_fixed_width_total :
    ∀ line : List Char, 5 ≤ (fwParts line).length →
      (∀ i, (fwParts line).length ≤ i → toNumber ((fwParts line).get? i) = 0) ∧
      ((∃ r, parseFixedWidth line = Except.ok r) ∨
        parseFixedWidth line =
          Except.error "Could not infer Non-Comm columns in fixed-width line") := by
  intro line hge
  constructor
  · intro i hi
    rw [List.get?_eq_getElem?, List.getElem?_eq_none hi]
    rfl
  · unfold parseFixedWidth
    dsimp only
    rw [if_neg (by omega)]
    cases hp : probePairs (fwParts line) [(2, 3), (3, 4), (4, 5), (5, 6)] with
    | some ab =>
      obtain ⟨a, b⟩ := ab
      exact Or.inl ⟨_, rfl⟩
    | none => exact Or.inr rfl

/-- C10 witness: a five-column line with no positive probe value reaches
the declared error, not an out-of-range failure. -/
theorem c10_witness :
    (∀ i, (fwParts ("A  B  C  D  E".data)).length ≤ i →
      toNumber ((fwParts ("A  B  C  D  E".data)).get? i) = 0) ∧
    ((∃ r, parseFixedWidth ("A  B  C  D  E".data) = Except.ok r) ∨
      parseFixedWidth ("A  B  C  D  E".data) =
        Except.error "Could not infer Non-Comm columns in fixed-width line") :=
  c10_fixed_width_total ("A  B  C  D  E".data) (by decide)

/-- C9: modelling the run as a transformer of the persisted artifact (the
script writes `OUT_PATH` only as its final statement, and `main().catch`
exits with status 1 on any thrown error): every fatal condition — fetch
failure, target line not found, or a structural parse failure surfacing as
a `buildOutput` error — leaves the previously persisted artifact unchanged
and exits non-zero, and the artifact equals the assembled output exactly on
a fully successful run with exit code 0. -/
theorem c9_abort_semantics :
    ∀ (fsState : Option Artifact) (fetched : Except String (List Char))
      (env : EnvVals) (now : List Char),
      (∀ e, fetched = Except.error e →
        runScript fsState fetched env now = (fsState, 1)) ∧
      (∀ raw, fetched = Except.ok raw → findTargetLine (goodLines raw) = none →
        buildOutput fsState raw env now =
          Except.error "Target market line not found in CFTC file" ∧
        runScript fsState fetched env now = (fsState, 1)) ∧
      (∀ raw e, fetched = Except.ok raw →
        buildOutput fsState raw env now = Except.error e →
        runScript fsState fetched env now = (fsState, 1)) ∧
      (∀ a, runScript fsState fetched env now = (some a, 0) ↔
        fetched.bind (fun raw => buildOutput fsState raw env now) = Except.ok a) := by
  intro fsState fetched env now
  refine ⟨?_, ?_, ?_, ?_⟩
  · intro e he
    subst he
    rfl
  · intro raw hf ht
    subst hf
    have hb : buildOutput fsState raw env now =
        Except.error "Target market line not found in CFTC file" := by
      unfold buildOutput
      dsimp only
      rw [ht]
    refine ⟨hb, ?_⟩
    unfold runScript
    rw [show (Except.ok raw).bind (fun raw => buildOutput fsState raw env now) =
        buildOutput fsState raw env now from rfl, hb]
  · intro raw e hf hb
    subst hf
    unfold runScript
    rw [show (Except.ok raw).bind (fun raw => buildOutput fsState raw env now) =
        buildOutput fsState raw env now from rfl, hb]
  · intro a
    unfold runScript
    cases hb : fetched.bind (fun raw => buildOutput fsState raw env now) with
    | ok b =>
      constructor
      · intro h
        rcases Prod.mk.inj h with ⟨h1, _⟩
        rcases Option.some.inj h1 with rfl
        rfl
      · intro h
        rcases Except.ok.inj h with rfl
        rfl
    | error e =>
      constructor
      · intro h
        rcases Prod.mk.inj h with ⟨_, h2⟩
        exact absurd h2 (by decide)
      · intro h
        exact absurd h (by simp)

/-- C9 witness: a failed fetch leaves the artifact unchanged and exits 1. -/
theorem c9_witness :
    runScript none (Except.error "HTTP 404") envZero ("T".data) = (none, 1) :=
  (c9_abort_semantics none (Except.error "HTTP 404") envZero ("T".data)).1 "HTTP 404" rfl

/-- C6: the Row Locator tries patterns in declaration order and returns the
original (non-normalised) first line whose normalised form contains the
normalised pattern; the fuzzy NASDAQ+MINI fallback applies only when every
exact pattern fails; and when neither succeeds the result is `none`, not an
arbitrary line — stated as equality with the declarative `findTargetSpec`,
for every pattern list and in particular for the module's
`candidatePatterns`. -/
theorem c6_row_locator :
    (∀ pats lines : List (List Char),
      findTargetLineWith pats lines = findTargetSpec pats lines) ∧
    (∀ lines : List (List Char),
      findTargetLine lines = findTargetSpec candidatePatterns lines) := by
  refine ⟨findTargetLineWith_eq_spec, ?_⟩
  intro lines
  exact findTargetLineWith_eq_spec candidatePatterns lines

/-- C7: the Text Normalizer is total and idempotent; strings that are
renderings of the same text — differing only in dash variants, letter
case, whitespace-run lengths and leading/trailing whitespace (equal
`canonWords`) — normalise identically; consequently the Row Locator is
unchanged when patterns are replaced by such renderings, and scans to the
same line index when the report lines are. -/
theorem c7_normalizer_equivalence :
    (∀ s : List Char, norm (norm s) = norm s) ∧
    (∀ s t : List Char, sameRendering s t = true → norm s = norm t) ∧
    (∀ pats pats' lines : List (List Char),
      List.Forall₂ (fun p q => sameRendering p q = true) pats pats' →
      findTargetLineWith pats lines = findTargetLineWith pats' lines) ∧
    (∀ pats lines lines' : List (List Char),
      List.Forall₂ (fun p q => sameRendering p q = true) lines lines' →
      findTargetIdx pats lines = findTargetIdx pats lines') := by
  refine ⟨norm_idem, norm_eq_of_sameRendering, ?_, ?_⟩
  · intro pats pats' lines h
    exact findTargetLineWith_congr_pats pats pats' lines
      (h.imp (fun a b hr => norm_eq_of_sameRendering a b hr))
  · intro pats lines lines' h
    exact findTargetIdx_congr_lines pats lines lines' (map_norm_congr lines lines' h)

/-- C7 witness: an en-dash, double-spaced, lower-case rendering of the
instrument name normalises like the canonical one. -/
theorem c7_witness :
    norm ("  E–MINI  NASDAQ-100 ".data) = norm ("e-mini Nasdaq−100".data) :=
  c7_normalizer_equivalence.2.1 ("  E–MINI  NASDAQ-100 ".data)
    ("e-mini Nasdaq−100".data) (by decide)
